import Mathlib

/-!
Verification of the Olive multi-GPU BSP graph engine (`src/olive/engine.h`).

The engine state is embedded shallowly: device arrays become Lean lists,
CUDA kernels become folds over their thread-index space (threads write
disjoint slots, so the sequential fold in ascending `tid` order realises
the same function on race-free inputs; where the source relies on atomics
for unique offsets, the fold's append realises the same multiset of
writes), and the host driver becomes a pure state-transformation on an
`Engine` structure.  `partition.h` / the message-box class are not part of
the sources; their behaviour (double-buffered inboxes, `clear`,
`recvMsgs`, `swapBuffers`, capacities) is modelled from the specification
where a claim needs it.
-/

namespace Olive

/-- A `VertexMessage`: receiver's local id plus a packed payload
(`engine.h` line 91, `partition.h` modelled from the spec). -/
structure VMsg (M : Type) where
  receiverId : Nat
  value : M
deriving Repr, DecidableEq, Inhabited

/-- Modelled from the spec: a double-buffered inbox (`MessageBox` of
`partition.h`, not under `src/`).  `front` is the buffer the scatter
kernel reads this superstep; `back` is the receive buffer the exchange
phase writes; `swapBuffers` exchanges the two. -/
structure Inbox (M : Type) where
  front : List (VMsg M) := []
  back : List (VMsg M) := []
deriving Repr, DecidableEq, Inhabited

/-- One partition of the graph: CSR topology, per-vertex state, worklist
structures and per-peer outboxes/inboxes (`Partition` of `partition.h`,
fields as used by `engine.h`). -/
structure Partition (V M : Type) where
  partitionId : Nat := 0
  vertexCount : Nat := 0
  globalIds : List Nat := []
  vertices : List Nat := []
  edges : List (Nat × Nat) := []
  vertexValues : List V := []
  workset : List Nat := []
  workqueue : List Nat := []
  workqueueSize : Nat := 0
  outboxes : List (List (VMsg M)) := []
  inboxes : List (Inbox M) := []
deriving Repr, DecidableEq, Inhabited

/-- The engine's global state (`Engine` of `engine.h`): the partitions and
the total vertex count.  The `terminate` flag is threaded explicitly
through `stepOnce`; profiling fields are irrelevant to the claims. -/
structure Engine (V M : Type) where
  partitions : List (Partition V M) := []
  vertexCount : Nat := 0
deriving Repr, DecidableEq, Inhabited

variable {V M : Type}

/-! ## The four device kernels (`engine.h` lines 23-130) -/

/-- One thread of `scatterKernel` (`engine.h` lines 33-42), acting on the
pair (vertexValues, workset) for the message at index `tid`. -/
def scatterStep [Inhabited V] (cond : V → Bool) (update : V → V) (unpack : M → V)
    (st : List V × List Nat) (msg : VMsg M) : List V × List Nat :=
  let inNode := msg.receiverId
  let newValue := unpack msg.value
  if cond (st.1.getD inNode default) then
    (st.1.set inNode (update newValue), st.2.set inNode 1)
  else
    st

/-- `scatterKernel` (`engine.h` lines 23-43): every message of the inbox is
processed by one thread; threads write disjoint-or-racing slots, embedded
as a left fold in ascending `tid` order. -/
def scatterKernel [Inhabited V] (cond : V → Bool) (update : V → V) (unpack : M → V)
    (inbox : List (VMsg M)) (vertexValues : List V) (workset : List Nat) :
    List V × List Nat :=
  inbox.foldl (scatterStep cond update unpack) (vertexValues, workset)

/-- One thread of `compactKernel` (`engine.h` lines 52-58): state is
(workset, workqueue); the atomic `workqueueSize` is the queue's length. -/
def compactStep (st : List Nat × List Nat) (tid : Nat) : List Nat × List Nat :=
  if st.1.getD tid 0 = 1 then (st.1.set tid 0, st.2 ++ [tid]) else st

/-- `compactKernel` (`engine.h` lines 45-59) over `n` elements, starting
from an empty queue (the driver resets `workqueueSize` to 0 first,
`engine.h` lines 344-347). -/
def compactKernel (workset : List Nat) (n : Nat) : List Nat × List Nat :=
  (List.range n).foldl compactStep (workset, [])

/-- State mutated by `expandKernel`: vertex values, workset and the
per-peer outboxes of the expanding partition. -/
structure ExpandState (V M : Type) where
  vertexValues : List V
  workset : List Nat
  outboxes : List (List (VMsg M))
deriving Repr, DecidableEq

/-- Processing of a single edge `e` by `expandKernel` (`engine.h` lines
82-98) for source vertex `outNode`: a local destination is updated in
place under `cond`; a remote destination produces one outbox message at
the atomically reserved offset (= current outbox length). -/
def expandEdgeStep [Inhabited V] (thisPid : Nat) (edges : List (Nat × Nat))
    (cond : V → Bool) (update : V → V) (pack : V → M)
    (outNode : Nat) (st : ExpandState V M) (e : Nat) : ExpandState V M :=
  let pid := (edges.getD e (0, 0)).1
  if pid = thisPid then
    let inNode := (edges.getD e (0, 0)).2
    if cond (st.vertexValues.getD inNode default) then
      { st with
          vertexValues :=
            st.vertexValues.set inNode (update (st.vertexValues.getD outNode default)),
          workset := st.workset.set inNode 1 }
    else st
  else
    let msg : VMsg M := ⟨(edges.getD e (0, 0)).2, pack (st.vertexValues.getD outNode default)⟩
    { st with outboxes := st.outboxes.set pid (st.outboxes.getD pid [] ++ [msg]) }

/-- One thread of `expandKernel` (`engine.h` lines 76-98): iterate the
out-edges `[vertices[outNode], vertices[outNode+1])` of `outNode`. -/
def expandVertex [Inhabited V] (thisPid : Nat) (vertices : List Nat)
    (edges : List (Nat × Nat)) (cond : V → Bool) (update : V → V) (pack : V → M)
    (outNode : Nat) (st : ExpandState V M) : ExpandState V M :=
  let first := vertices.getD outNode 0
  let last := vertices.getD (outNode + 1) 0
  (List.range' first (last - first)).foldl
    (expandEdgeStep thisPid edges cond update pack outNode) st

/-- `expandKernel` (`engine.h` lines 61-99) over `n = workqueueSize`
queued vertices. -/
def expandKernel [Inhabited V] (thisPid : Nat) (vertices : List Nat)
    (edges : List (Nat × Nat)) (cond : V → Bool) (update : V → V) (pack : V → M)
    (workqueue : List Nat) (n : Nat) (st : ExpandState V M) : ExpandState V M :=
  (List.range n).foldl
    (fun st tid =>
      expandVertex thisPid vertices edges cond update pack (workqueue.getD tid 0) st)
    st

/-- `vertexMapKernel` (`engine.h` lines 101-111) over `n` elements. -/
def vertexMapKernel [Inhabited V] (vertexValues : List V) (n : Nat) (f : V → V) : List V :=
  (List.range n).foldl (fun vv tid => vv.set tid (f (vv.getD tid default))) vertexValues

/-- `vertexFilterKernel` (`engine.h` lines 114-130) over `n` elements:
every slot whose global id matches `id` is updated and activated. -/
def vertexFilterKernel [Inhabited V] (globalIds : List Nat) (n : Nat) (id : Nat)
    (vertexValues : List V) (f : V → V) (workset : List Nat) : List V × List Nat :=
  (List.range n).foldl
    (fun st tid =>
      if globalIds.getD tid 0 = id then
        (st.1.set tid (f (st.1.getD tid default)), st.2.set tid 1)
      else st)
    (vertexValues, workset)

/-! ## Host driver (`engine.h` lines 168-502) -/

/-- Indexed map used to embed the driver loops that address partition `i`'s
box for peer `j`; the index is the position in the list. -/
def mapWithIdx (f : Nat → α → α) : Nat → List α → List α
  | _, [] => []
  | i, a :: as => f i a :: mapWithIdx f (i + 1) as

/-- The scatter phase for one partition (`engine.h` lines 309-334): for
each peer `j` in ascending order, skip an empty inbox, otherwise run the
scatter kernel on its front buffer. -/
def scatterPartition [Inhabited V] (cond : V → Bool) (update : V → V) (unpack : M → V)
    (numParts : Nat) (p : Partition V M) : Partition V M :=
  (List.range numParts).foldl
    (fun p j =>
      let ib := (p.inboxes.getD j default).front
      if ib.length = 0 then p
      else
        let r := scatterKernel cond update unpack ib p.vertexValues p.workset
        { p with vertexValues := r.1, workset := r.2 })
    p

/-- The scatter phase across all partitions. -/
def scatterPhase [Inhabited V] (cond : V → Bool) (update : V → V) (unpack : M → V)
    (e : Engine V M) : Engine V M :=
  { e with partitions :=
      e.partitions.map (scatterPartition cond update unpack e.partitions.length) }

/-- The compact phase for one partition (`engine.h` lines 337-360):
`workqueueSize` is reset to 0 on the host, then the kernel runs over
`vertexCount` elements; the final size is the number of pushes. -/
def compactPartition (p : Partition V M) : Partition V M :=
  let r := compactKernel p.workset p.vertexCount
  { p with workset := r.1, workqueue := r.2, workqueueSize := r.2.length }

/-- The compact phase across all partitions. -/
def compactPhase (e : Engine V M) : Engine V M :=
  { e with partitions := e.partitions.map compactPartition }

/-- Scatter followed by compact: the state at which the termination probe
(`engine.h` lines 362-374) reads every `workqueueSize`. -/
def afterCompact [Inhabited V] (cond : V → Bool) (update : V → V) (unpack : M → V)
    (e : Engine V M) : Engine V M :=
  compactPhase (scatterPhase cond update unpack e)

/-- The termination probe (`engine.h` lines 362-374): `terminate` stays
true iff every partition's `workqueueSize` is zero. -/
def allQueuesEmpty (e : Engine V M) : Bool :=
  e.partitions.all (fun p => p.workqueueSize == 0)

/-- The expand phase for one partition (`engine.h` lines 382-417): skip a
partition with empty workqueue; otherwise clear every peer outbox (not the
self slot) and run the expand kernel. -/
def expandPartition [Inhabited V] (cond : V → Bool) (update : V → V) (pack : V → M)
    (numParts : Nat) (p : Partition V M) : Partition V M :=
  if p.workqueueSize = 0 then p
  else
    let cleared := (List.range numParts).foldl
      (fun ob j => if j = p.partitionId then ob else ob.set j []) p.outboxes
    let st := expandKernel p.partitionId p.vertices p.edges cond update pack
      p.workqueue p.workqueueSize ⟨p.vertexValues, p.workset, cleared⟩
    { p with vertexValues := st.vertexValues, workset := st.workset,
             outboxes := st.outboxes }

/-- The expand phase across all partitions. -/
def expandPhase [Inhabited V] (cond : V → Bool) (update : V → V) (pack : V → M)
    (e : Engine V M) : Engine V M :=
  { e with partitions :=
      e.partitions.map (expandPartition cond update pack e.partitions.length) }

/-- The all-to-all exchange (`engine.h` lines 426-433): for every ordered
pair `i ≠ j`, partition `i`'s inbox slot `j` receives partition `j`'s
outbox slot `i` (`recvMsgs` modelled from the spec: the peer outbox buffer
of length `length` is copied into the receive buffer). -/
def exchangePhase (e : Engine V M) : Engine V M :=
  let recvOne := fun (i j : Nat) (ib : Inbox M) =>
    if i = j then ib
    else { ib with back := (e.partitions.getD j default).outboxes.getD i [] }
  let recvPart := fun (i : Nat) (p : Partition V M) =>
    { p with inboxes := mapWithIdx (recvOne i) 0 p.inboxes }
  { e with partitions := mapWithIdx recvPart 0 e.partitions }

/-- The buffer swap (`engine.h` lines 445-450): every non-self inbox swaps
its front and back buffers (`swapBuffers` modelled from the spec). -/
def swapPhase (e : Engine V M) : Engine V M :=
  let swapOne := fun (i j : Nat) (ib : Inbox M) =>
    if i = j then ib else (⟨ib.back, ib.front⟩ : Inbox M)
  let swapPart := fun (i : Nat) (p : Partition V M) =>
    { p with inboxes := mapWithIdx (swapOne i) 0 p.inboxes }
  { e with partitions := mapWithIdx swapPart 0 e.partitions }

/-- One call of `Engine::superstep` (`engine.h` lines 275-502), returning
the new state and the `terminate` flag: scatter, compact, probe; on a
positive probe return immediately (before expand and exchange), otherwise
expand, exchange, synchronize and swap. -/
def stepOnce [Inhabited V] (cond : V → Bool) (update : V → V) (pack : V → M)
    (unpack : M → V) (e : Engine V M) : Engine V M × Bool :=
  let e2 := afterCompact cond update unpack e
  if allQueuesEmpty e2 then (e2, true)
  else
    (swapPhase (exchangePhase (expandPhase cond update pack e2)), false)

/-- `Engine::run` (`engine.h` lines 261-273) with explicit fuel: repeat
supersteps until a probe terminates one; `none` when the fuel is spent
before termination. -/
def runE [Inhabited V] (cond : V → Bool) (update : V → V) (pack : V → M)
    (unpack : M → V) : Nat → Engine V M → Option (Engine V M)
  | 0, _ => none
  | fuel + 1, e =>
    let r := stepOnce cond update pack unpack e
    if r.2 then some r.1 else runE cond update pack unpack fuel r.1

/-- `Engine::gather` (`engine.h` lines 168-180): the ordered trace of
callback invocations — partitions in order, local indices `j` over
`vertexValues.size()` in order, each invoked at
`(globalIds[j], vertexValues[j])`. -/
def gatherTrace [Inhabited V] (e : Engine V M) : List (Nat × V) :=
  e.partitions.flatMap (fun p =>
    (List.range p.vertexValues.length).map
      (fun j => (p.globalIds.getD j 0, p.vertexValues.getD j default)))

/-- `Engine::vertexMap` (`engine.h` lines 189-206): apply the map kernel
to every partition over `vertexValues.size()` elements. -/
def vertexMapE [Inhabited V] (f : V → V) (e : Engine V M) : Engine V M :=
  { e with partitions :=
      e.partitions.map (fun p =>
        { p with vertexValues := vertexMapKernel p.vertexValues p.vertexValues.length f }) }

/-- `Engine::vertexFilter` (`engine.h` lines 222-241): apply the filter
kernel to every partition over `vertexValues.size()` elements. -/
def vertexFilterE [Inhabited V] (id : Nat) (f : V → V) (e : Engine V M) : Engine V M :=
  { e with partitions :=
      e.partitions.map (fun p =>
        let r := vertexFilterKernel p.globalIds p.vertexValues.length id
          p.vertexValues f p.workset
        { p with vertexValues := r.1, workset := r.2 }) }

/-- Modelled from the spec: the preallocated capacities of a partition's
outboxes (`MessageBox` buffers of `partition.h`, not under `src/`); an
outbox respects its capacity when its length never exceeds it. -/
def outboxesWithinCapacity (caps : List Nat) (outboxes : List (List (VMsg M))) : Prop :=
  ∀ j, (outboxes.getD j []).length ≤ caps.getD j 0

/-- A conditional per-slot fold: the common shape of the compact,
vertex-map and vertex-filter kernels.  Thread `tid` reads its own slot,
and, when the condition fires, overwrites that slot. -/
def slotFold (c : Nat → α → Bool) (u : Nat → α → α) (d0 : α)
    (l : List α) (tids : List Nat) : List α :=
  tids.foldl
    (fun a tid => if c tid (a.getD tid d0) then a.set tid (u tid (a.getD tid d0)) else a)
    l

/-! ## Concrete instances used as witnesses and counterexamples -/

/-- A trivially true gate, used in concrete runs. -/
def condAlways : Nat → Bool := fun _ => true

/-- The successor update used in concrete runs (BFS-style depth+1). -/
def updateSucc : Nat → Nat := fun v => v + 1

/-- Identity pack/unpack on `Nat` payloads. -/
def idNat : Nat → Nat := fun v => v

/-- A single partition with two vertices and one local edge 0→1; vertex 0
is seeded in the workset. -/
def exLocalPart : Partition Nat Nat :=
  { partitionId := 0, vertexCount := 2, globalIds := [0, 1],
    vertices := [0, 1, 1], edges := [(0, 1)],
    vertexValues := [5, 0], workset := [1, 0], workqueue := [], workqueueSize := 0,
    outboxes := [[]], inboxes := [default] }

/-- A one-partition engine whose expand phase re-activates a local vertex. -/
def exLocalEngine : Engine Nat Nat := { partitions := [exLocalPart], vertexCount := 2 }

/-- Partition 0 of the stale-outbox scenario: one seeded vertex whose only
edge is remote, to partition 1's vertex 0. -/
def stalePart0 : Partition Nat Nat :=
  { partitionId := 0, vertexCount := 1, globalIds := [0],
    vertices := [0, 1], edges := [(1, 0)],
    vertexValues := [7], workset := [1], workqueue := [], workqueueSize := 0,
    outboxes := [[], [], []], inboxes := [default, default, default] }

/-- Partition 1 of the stale-outbox scenario: one vertex, no edges. -/
def stalePart1 : Partition Nat Nat :=
  { partitionId := 1, vertexCount := 1, globalIds := [1],
    vertices := [0, 0], edges := [],
    vertexValues := [0], workset := [0], workqueue := [], workqueueSize := 0,
    outboxes := [[], [], []], inboxes := [default, default, default] }

/-- Partition 2 of the stale-outbox scenario: one seeded vertex with a
local self-loop, which keeps the run alive in every superstep. -/
def stalePart2 : Partition Nat Nat :=
  { partitionId := 2, vertexCount := 1, globalIds := [2],
    vertices := [0, 1], edges := [(2, 0)],
    vertexValues := [0], workset := [1], workqueue := [], workqueueSize := 0,
    outboxes := [[], [], []], inboxes := [default, default, default] }

/-- The three-partition engine in which partition 0's outbox goes stale
after superstep 1 and is re-exchanged in superstep 2. -/
def staleEngine : Engine Nat Nat :=
  { partitions := [stalePart0, stalePart1, stalePart2], vertexCount := 3 }

/-- The stale-outbox engine after one superstep. -/
def staleEngine1 : Engine Nat Nat :=
  (stepOnce condAlways updateSucc idNat idNat staleEngine).1

/-- The stale-outbox engine after two supersteps. -/
def staleEngine2 : Engine Nat Nat :=
  (stepOnce condAlways updateSucc idNat idNat staleEngine1).1

/-- A partition with three vertices, two of them active, used to witness
the compaction claims. -/
def exCompactPart : Partition Nat Nat :=
  { partitionId := 0, vertexCount := 3, globalIds := [4, 5, 6],
    vertices := [0, 0, 0, 0], edges := [],
    vertexValues := [9, 9, 9], workset := [1, 0, 1], workqueue := [], workqueueSize := 0,
    outboxes := [[]], inboxes := [default] }

/-- A quiescent one-partition engine: its first superstep terminates. -/
def quietEngine : Engine Nat Nat :=
  { partitions :=
      [{ partitionId := 0, vertexCount := 2, globalIds := [0, 1],
         vertices := [0, 0, 0], edges := [],
         vertexValues := [3, 4], workset := [0, 0], workqueue := [], workqueueSize := 0,
         outboxes := [[]], inboxes := [default] }],
    vertexCount := 2 }

/-- A two-partition engine used to witness the gather and filter claims. -/
def exGatherEngine : Engine Nat Nat :=
  { partitions :=
      [{ partitionId := 0, vertexCount := 2, globalIds := [0, 2],
         vertices := [0, 0, 0], edges := [],
         vertexValues := [10, 12], workset := [0, 0], workqueue := [], workqueueSize := 0,
         outboxes := [[], []], inboxes := [default, default] },
       { partitionId := 1, vertexCount := 1, globalIds := [1],
         vertices := [0, 0], edges := [],
         vertexValues := [11], workset := [0], workqueue := [], workqueueSize := 0,
         outboxes := [[], []], inboxes := [default, default] }],
    vertexCount := 3 }

/-! ## List helper lemmas -/

theorem getD_set_ne (l : List α) (i j : Nat) (a d : α) (h : i ≠ j) :
    (l.set i a).getD j d = l.getD j d := by
  simp [List.getD_eq_getElem?_getD, List.getElem?_set_ne h]

theorem getD_set_self_of_lt (l : List α) (i : Nat) (a d : α) (h : i < l.length) :
    (l.set i a).getD i d = a := by
  simp [List.getD_eq_getElem?_getD, List.getElem?_set_self h]

theorem getD_eq_default_of_le (l : List α) (i : Nat) (d : α) (h : l.length ≤ i) :
    l.getD i d = d := by
  simp [List.getD_eq_getElem?_getD, List.getElem?_eq_none h]

theorem getD_eq_getElem (l : List α) (i : Nat) (d : α) (h : i < l.length) :
    l.getD i d = l[i] := by
  simp [List.getD_eq_getElem?_getD, List.getElem?_eq_getElem h]

theorem getD_map_lt (f : α → β) (l : List α) (i : Nat) (d : β) (d2 : α)
    (h : i < l.length) :
    (l.map f).getD i d = f (l.getD i d2) := by
  rw [getD_eq_getElem _ _ _ (by simpa using h), getD_eq_getElem _ _ _ h,
    List.getElem_map]

theorem foldl_invariant (f : α → β → α) (P : α → Prop)
    (h : ∀ a b, P a → P (f a b)) : ∀ (l : List β) (a : α), P a → P (l.foldl f a) := by
  intro l
  induction l with
  | nil => intro a ha; exact ha
  | cons x xs ih => intro a ha; exact ih _ (h a x ha)

theorem length_mapWithIdx (f : Nat → α → α) :
    ∀ (s : Nat) (l : List α), (mapWithIdx f s l).length = l.length := by
  intro s l
  induction l generalizing s with
  | nil => rfl
  | cons x xs ih => simp [mapWithIdx, ih]

theorem getD_mapWithIdx (f : Nat → α → α) :
    ∀ (l : List α) (s j : Nat) (d : α), j < l.length →
      (mapWithIdx f s l).getD j d = f (s + j) (l.getD j d) := by
  intro l
  induction l with
  | nil => intro s j d h; simp at h
  | cons x xs ih =>
    intro s j d h
    cases j with
    | zero => simp [mapWithIdx]
    | succ j =>
      have hj : j < xs.length := by simpa using h
      have := ih (s + 1) j d hj
      simpa [mapWithIdx, Nat.add_assoc, Nat.add_comm 1 j] using this

theorem foldl_prod_eq (F : α → γ → α) (G : β → γ → β) :
    ∀ (l : List γ) (a : α) (b : β),
      l.foldl (fun st x => (F st.1 x, G st.2 x)) (a, b) = (l.foldl F a, l.foldl G b) := by
  intro l
  induction l with
  | nil => intro a b; rfl
  | cons x xs ih => intro a b; simpa using ih (F a x) (G b x)

theorem foldl_fst_eq (F : α → γ → α) (G : α × β → γ → β) :
    ∀ (l : List γ) (a : α) (b : β),
      (l.foldl (fun st x => (F st.1 x, G st x)) (a, b)).1 = l.foldl F a := by
  intro l
  induction l with
  | nil => intro a b; rfl
  | cons x xs ih => intro a b; simpa using ih (F a x) (G (a, b) x)

theorem slotFold_length (c : Nat → α → Bool) (u : Nat → α → α) (d0 : α)
    (l : List α) (tids : List Nat) : (slotFold c u d0 l tids).length = l.length := by
  have := foldl_invariant
    (fun a tid => if c tid (a.getD tid d0) then a.set tid (u tid (a.getD tid d0)) else a)
    (fun a => a.length = l.length)
    (by
      intro a tid ha
      dsimp only
      split
      · simpa using ha
      · exact ha)
    tids l rfl
  exact this

theorem slotFold_getD (c : Nat → α → Bool) (u : Nat → α → α) (d0 : α) (k : Nat) :
    ∀ (s : Nat) (l : List α) (i : Nat) (d : α),
      (slotFold c u d0 l (List.range' s k)).getD i d
        = if s ≤ i ∧ i < s + k ∧ i < l.length ∧ c i (l.getD i d0) = true then
            u i (l.getD i d)
          else l.getD i d := by
  induction k with
  | zero =>
    intro s l i d
    rw [if_neg (by rintro ⟨h1, h2, h3, h4⟩; omega)]
    rfl
  | succ k ih =>
    intro s l i d
    rw [List.range'_succ]
    have hstep : (slotFold c u d0 l (s :: List.range' (s + 1) k)).getD i d
        = (slotFold c u d0
            (if c s (l.getD s d0) = true then l.set s (u s (l.getD s d0)) else l)
            (List.range' (s + 1) k)).getD i d := rfl
    rw [hstep]
    by_cases hc : c s (l.getD s d0) = true
    · rw [if_pos hc]
      by_cases hs : s < l.length
      · rw [ih (s + 1) (l.set s (u s (l.getD s d0))) i d]
        rcases eq_or_ne i s with rfl | hne
        · rw [if_neg (by rintro ⟨h1, h2, h3, h4⟩; omega)]
          rw [getD_set_self_of_lt _ _ _ _ hs]
          rw [if_pos ⟨Nat.le_refl _, by omega, hs, hc⟩]
          rw [getD_eq_getElem l i d0 hs, getD_eq_getElem l i d hs]
        · rw [getD_set_ne _ _ _ _ _ (Ne.symm hne), getD_set_ne _ _ _ _ _ (Ne.symm hne)]
          simp only [List.length_set]
          have hiff : (s + 1 ≤ i ∧ i < s + 1 + k ∧ i < l.length
                ∧ c i (l.getD i d0) = true)
              ↔ (s ≤ i ∧ i < s + (k + 1) ∧ i < l.length ∧ c i (l.getD i d0) = true) := by
            constructor <;> rintro ⟨h1, h2, h3, h4⟩ <;> exact ⟨by omega, by omega, h3, h4⟩
          rw [if_congr hiff rfl rfl]
      · rw [List.set_eq_of_length_le (Nat.le_of_not_lt hs)]
        rw [ih (s + 1) l i d]
        have hiff : (s + 1 ≤ i ∧ i < s + 1 + k ∧ i < l.length
              ∧ c i (l.getD i d0) = true)
            ↔ (s ≤ i ∧ i < s + (k + 1) ∧ i < l.length ∧ c i (l.getD i d0) = true) := by
          constructor <;> rintro ⟨h1, h2, h3, h4⟩ <;> exact ⟨by omega, by omega, h3, h4⟩
        rw [if_congr hiff rfl rfl]
    · rw [if_neg hc]
      rw [ih (s + 1) l i d]
      have hiff : (s + 1 ≤ i ∧ i < s + 1 + k ∧ i < l.length
            ∧ c i (l.getD i d0) = true)
          ↔ (s ≤ i ∧ i < s + (k + 1) ∧ i < l.length ∧ c i (l.getD i d0) = true) := by
        constructor
        · rintro ⟨h1, h2, h3, h4⟩
          exact ⟨by omega, by omega, h3, h4⟩
        · rintro ⟨h1, h2, h3, h4⟩
          refine ⟨?_, by omega, h3, h4⟩
          rcases eq_or_ne i s with rfl | hne
          · exact absurd h4 hc
          · omega
      rw [if_congr hiff rfl rfl]

/-! ## Characterisation of the compact kernel -/

theorem compact_fold_queue (k : Nat) :
    ∀ (s : Nat) (ws q : List Nat),
      ((List.range' s k).foldl compactStep (ws, q)).2
        = q ++ (List.range' s k).filter (fun u => decide (ws.getD u 0 = 1)) := by
  induction k with
  | zero => intro s ws q; simp
  | succ k ih =>
    intro s ws q
    rw [List.range'_succ]
    have hmem : ∀ u ∈ List.range' (s + 1) k,
        (decide ((ws.set s 0).getD u 0 = 1)) = (decide (ws.getD u 0 = 1)) := by
      intro u hu
      have hs : s + 1 ≤ u := (List.mem_range'_1.mp hu).1
      rw [getD_set_ne _ _ _ _ _ (by omega)]
    by_cases hc : ws.getD s 0 = 1
    · have h1 : compactStep (ws, q) s = (ws.set s 0, q ++ [s]) := by
        unfold compactStep
        dsimp only
        rw [if_pos hc]
      calc ((s :: List.range' (s + 1) k).foldl compactStep (ws, q)).2
          = ((List.range' (s + 1) k).foldl compactStep (ws.set s 0, q ++ [s])).2 := by
            rw [List.foldl_cons, h1]
        _ = (q ++ [s]) ++ (List.range' (s + 1) k).filter
              (fun u => decide ((ws.set s 0).getD u 0 = 1)) := ih (s + 1) _ _
        _ = q ++ (s :: List.range' (s + 1) k).filter
              (fun u => decide (ws.getD u 0 = 1)) := by
            rw [List.filter_congr hmem, List.filter_cons_of_pos (by simpa using hc),
              List.append_assoc]
            rfl
    · have h1 : compactStep (ws, q) s = (ws, q) := by
        unfold compactStep
        dsimp only
        rw [if_neg hc]
      calc ((s :: List.range' (s + 1) k).foldl compactStep (ws, q)).2
          = ((List.range' (s + 1) k).foldl compactStep (ws, q)).2 := by
            rw [List.foldl_cons, h1]
        _ = q ++ (List.range' (s + 1) k).filter (fun u => decide (ws.getD u 0 = 1)) :=
            ih (s + 1) _ _
        _ = q ++ (s :: List.range' (s + 1) k).filter
              (fun u => decide (ws.getD u 0 = 1)) := by
            rw [List.filter_cons_of_neg (by simpa using hc)]

theorem compactKernel_queue (ws : List Nat) (n : Nat) :
    (compactKernel ws n).2 = (List.range n).filter (fun u => decide (ws.getD u 0 = 1)) := by
  have := compact_fold_queue n 0 ws []
  rw [← List.range_eq_range'] at this
  simpa [compactKernel] using this

theorem compactKernel_fst (ws : List Nat) (n : Nat) :
    (compactKernel ws n).1
      = slotFold (fun _ v => decide (v = 1)) (fun _ _ => 0) 0 ws (List.range n) := by
  have h1 : compactKernel ws n
      = (List.range n).foldl
          (fun st tid =>
            ((fun a tid => if decide (a.getD tid 0 = 1) = true then
                a.set tid 0 else a) st.1 tid,
             (fun st tid => if decide (st.1.getD tid 0 = 1) = true then
                st.2 ++ [tid] else st.2) st tid))
          (ws, []) := by
    unfold compactKernel
    apply congrArg (fun g => (List.range n).foldl g (ws, []))
    funext st tid
    unfold compactStep
    dsimp only
    by_cases h : st.1.getD tid 0 = 1
    · rw [if_pos h, if_pos (by simpa using h), if_pos (by simpa using h)]
    · rw [if_neg h, if_neg (by simpa using h), if_neg (by simpa using h)]
  rw [h1]
  exact foldl_fst_eq
    (fun a tid => if decide (a.getD tid 0 = 1) = true then a.set tid 0 else a)
    (fun st tid => if decide (st.1.getD tid 0 = 1) = true then st.2 ++ [tid] else st.2)
    (List.range n) ws []

theorem compactKernel_fst_getD (ws : List Nat) (n i d : Nat) :
    ((compactKernel ws n).1).getD i d
      = if i < n ∧ i < ws.length ∧ ws.getD i 0 = 1 then 0 else ws.getD i d := by
  rw [compactKernel_fst, List.range_eq_range', slotFold_getD]
  have hiff : (0 ≤ i ∧ i < 0 + n ∧ i < ws.length ∧ decide (ws.getD i 0 = 1) = true)
      ↔ (i < n ∧ i < ws.length ∧ ws.getD i 0 = 1) := by
    constructor
    · rintro ⟨h1, h2, h3, h4⟩
      exact ⟨by omega, h3, by simpa using h4⟩
    · rintro ⟨h1, h2, h3⟩
      exact ⟨Nat.zero_le _, by omega, h2, by simpa using h3⟩
  rw [if_congr hiff rfl rfl]

theorem compactKernel_fst_length (ws : List Nat) (n : Nat) :
    ((compactKernel ws n).1).length = ws.length := by
  rw [compactKernel_fst]
  exact slotFold_length _ _ _ _ _

theorem compactKernel_fst_all_zero (ws : List Nat) (n : Nat)
    (hlen : ws.length = n) (h01 : ∀ x ∈ ws, x = 0 ∨ x = 1) :
    ∀ x ∈ (compactKernel ws n).1, x = 0 := by
  intro x hx
  rcases List.mem_iff_getElem.mp hx with ⟨i, hi, hget⟩
  have hilen : i < ws.length := by
    have := compactKernel_fst_length ws n
    omega
  have hx0 : ((compactKernel ws n).1).getD i 0 = x := by
    rw [getD_eq_getElem _ _ _ hi]
    exact hget
  rw [compactKernel_fst_getD] at hx0
  by_cases hc : ws.getD i 0 = 1
  · rw [if_pos ⟨by omega, hilen, hc⟩] at hx0
    omega
  · rw [if_neg (by rintro ⟨h1, h2, h3⟩; exact hc h3)] at hx0
    have hmem : ws.getD i 0 ∈ ws := by
      rw [getD_eq_getElem _ _ _ hilen]
      exact List.getElem_mem hilen
    rcases h01 _ hmem with h0 | h1
    · omega
    · exact absurd h1 hc

/-! ## Characterisation of the vertex-map and vertex-filter kernels -/

theorem vertexMapKernel_eq_slotFold [Inhabited V] (vv : List V) (n : Nat) (f : V → V) :
    vertexMapKernel vv n f
      = slotFold (fun _ _ => true) (fun _ v => f v) default vv (List.range n) := by
  apply congrArg (fun g => (List.range n).foldl g vv)
  funext a tid
  simp [slotFold]

theorem vertexMapKernel_eq_map [Inhabited V] (vv : List V) (f : V → V) :
    vertexMapKernel vv vv.length f = vv.map f := by
  have hlen : (vertexMapKernel vv vv.length f).length = vv.length := by
    rw [vertexMapKernel_eq_slotFold]
    exact slotFold_length _ _ _ _ _
  apply List.ext_getElem (by simpa using hlen)
  intro i h1 h2
  have hi : i < vv.length := by simpa using h2
  have := slotFold_getD (α := V) (fun _ _ => true) (fun _ v => f v) default
    vv.length 0 vv i default
  rw [← List.range_eq_range', ← vertexMapKernel_eq_slotFold] at this
  rw [if_pos ⟨Nat.zero_le _, by omega, hi, rfl⟩] at this
  rw [← getD_eq_getElem _ _ default h1, this, List.getElem_map,
    getD_eq_getElem _ _ default hi]

theorem vertexFilterKernel_eq_pair [Inhabited V] (gids : List Nat) (n id : Nat)
    (vv : List V) (f : V → V) (ws : List Nat) :
    vertexFilterKernel gids n id vv f ws
      = (slotFold (fun tid _ => decide (gids.getD tid 0 = id)) (fun _ v => f v)
           default vv (List.range n),
         slotFold (fun tid _ => decide (gids.getD tid 0 = id)) (fun _ _ => 1)
           0 ws (List.range n)) := by
  have h1 : vertexFilterKernel gids n id vv f ws
      = (List.range n).foldl
          (fun st tid =>
            ((fun a tid => if decide (gids.getD tid 0 = id) = true then
                a.set tid (f (a.getD tid default)) else a) st.1 tid,
             (fun b tid => if decide (gids.getD tid 0 = id) = true then
                b.set tid 1 else b) st.2 tid))
          (vv, ws) := by
    unfold vertexFilterKernel
    apply congrArg (fun g => (List.range n).foldl g (vv, ws))
    funext st tid
    dsimp only
    by_cases h : gids.getD tid 0 = id
    · rw [if_pos h, if_pos (by simpa using h), if_pos (by simpa using h)]
    · rw [if_neg h, if_neg (by simpa using h), if_neg (by simpa using h)]
  rw [h1]
  exact foldl_prod_eq
    (fun a tid => if decide (gids.getD tid 0 = id) = true then
      a.set tid (f (a.getD tid default)) else a)
    (fun b tid => if decide (gids.getD tid 0 = id) = true then b.set tid 1 else b)
    (List.range n) vv ws

/-! ## Frame lemmas for the driver phases -/

theorem scatterPartition_frame [Inhabited V] (cond : V → Bool) (update : V → V)
    (unpack : M → V) (numParts : Nat) (p : Partition V M) :
    ∃ r : List V × List Nat,
      scatterPartition cond update unpack numParts p
        = { p with vertexValues := r.1, workset := r.2 } := by
  have hstep : ∀ (q : Partition V M) (j : Nat),
      (∃ r : List V × List Nat, q = { p with vertexValues := r.1, workset := r.2 }) →
      ∃ r : List V × List Nat,
        (if ((q.inboxes.getD j default).front).length = 0 then q
         else
           { q with
               vertexValues := (scatterKernel cond update unpack
                 (q.inboxes.getD j default).front q.vertexValues q.workset).1,
               workset := (scatterKernel cond update unpack
                 (q.inboxes.getD j default).front q.vertexValues q.workset).2 })
          = { p with vertexValues := r.1, workset := r.2 } := by
    intro q j hq
    rcases hq with ⟨r, rfl⟩
    split
    · exact ⟨r, rfl⟩
    · exact ⟨_, rfl⟩
  exact foldl_invariant _ _ hstep (List.range numParts) p
    ⟨(p.vertexValues, p.workset), rfl⟩

theorem scatterPartition_outboxes [Inhabited V] (cond : V → Bool) (update : V → V)
    (unpack : M → V) (numParts : Nat) (p : Partition V M) :
    (scatterPartition cond update unpack numParts p).outboxes = p.outboxes := by
  rcases scatterPartition_frame cond update unpack numParts p with ⟨r, h⟩
  rw [h]

theorem scatterPartition_inboxes [Inhabited V] (cond : V → Bool) (update : V → V)
    (unpack : M → V) (numParts : Nat) (p : Partition V M) :
    (scatterPartition cond update unpack numParts p).inboxes = p.inboxes := by
  rcases scatterPartition_frame cond update unpack numParts p with ⟨r, h⟩
  rw [h]

theorem expandPartition_frame [Inhabited V] (cond : V → Bool) (update : V → V)
    (pack : V → M) (numParts : Nat) (p : Partition V M) :
    ∃ (vv : List V) (ws : List Nat) (ob : List (List (VMsg M))),
      expandPartition cond update pack numParts p
        = { p with vertexValues := vv, workset := ws, outboxes := ob } := by
  unfold expandPartition
  split
  · exact ⟨p.vertexValues, p.workset, p.outboxes, rfl⟩
  · exact ⟨_, _, _, rfl⟩

theorem expandPartition_inboxes [Inhabited V] (cond : V → Bool) (update : V → V)
    (pack : V → M) (numParts : Nat) (p : Partition V M) :
    (expandPartition cond update pack numParts p).inboxes = p.inboxes := by
  rcases expandPartition_frame cond update pack numParts p with ⟨vv, ws, ob, h⟩
  rw [h]

theorem afterCompact_partitions [Inhabited V] (cond : V → Bool) (update : V → V)
    (unpack : M → V) (e : Engine V M) :
    (afterCompact cond update unpack e).partitions
      = e.partitions.map
          (fun p => compactPartition (scatterPartition cond update unpack
            e.partitions.length p)) := by
  show (e.partitions.map
      (scatterPartition cond update unpack e.partitions.length)).map compactPartition = _
  rw [List.map_map]
  rfl

theorem afterCompact_boxes [Inhabited V] (cond : V → Bool) (update : V → V)
    (unpack : M → V) (e : Engine V M) :
    (afterCompact cond update unpack e).partitions.map (fun p => (p.outboxes, p.inboxes))
      = e.partitions.map (fun p => (p.outboxes, p.inboxes)) := by
  rw [afterCompact_partitions, List.map_map]
  apply congrArg (fun g => List.map g e.partitions)
  funext p
  show ((compactPartition _).outboxes, (compactPartition _).inboxes) = _
  rw [show ∀ q : Partition V M, (compactPartition q).outboxes = q.outboxes from
      fun q => rfl,
    show ∀ q : Partition V M, (compactPartition q).inboxes = q.inboxes from
      fun q => rfl,
    scatterPartition_outboxes, scatterPartition_inboxes]

theorem afterCompact_length [Inhabited V] (cond : V → Bool) (update : V → V)
    (unpack : M → V) (e : Engine V M) :
    (afterCompact cond update unpack e).partitions.length = e.partitions.length := by
  rw [afterCompact_partitions, List.length_map]

theorem expandPhase_length [Inhabited V] (cond : V → Bool) (update : V → V)
    (pack : V → M) (e : Engine V M) :
    (expandPhase cond update pack e).partitions.length = e.partitions.length := by
  unfold expandPhase
  exact List.length_map _ _

theorem expandPhase_inboxes_getD [Inhabited V] (cond : V → Bool) (update : V → V)
    (pack : V → M) (e : Engine V M) (j : Nat) (h : j < e.partitions.length) :
    ((expandPhase cond update pack e).partitions.getD j default).inboxes
      = (e.partitions.getD j default).inboxes := by
  unfold expandPhase
  dsimp only
  rw [getD_map_lt _ _ _ _ default h]
  exact expandPartition_inboxes _ _ _ _ _

/-! ## Vertex-filter characterisation -/

theorem vertexFilterKernel_unchanged [Inhabited V] (gids : List Nat) (n id : Nat)
    (vv : List V) (f : V → V) (ws : List Nat)
    (hnm : ∀ t, t < n → gids.getD t 0 ≠ id) :
    vertexFilterKernel gids n id vv f ws = (vv, ws) := by
  rw [vertexFilterKernel_eq_pair]
  have hzero : ∀ (l : List V), slotFold
      (fun tid _ => decide (gids.getD tid 0 = id)) (fun _ v => f v) default l
      (List.range n) = l := by
    intro l
    apply List.ext_getElem (by rw [slotFold_length])
    intro i h1 h2
    rw [← getD_eq_getElem _ _ default h1, ← getD_eq_getElem _ _ default h2]
    rw [List.range_eq_range', slotFold_getD]
    rw [if_neg]
    rintro ⟨hs, hk, hl, hcond⟩
    exact hnm i (by omega) (by simpa using hcond)
  have hzero2 : slotFold
      (fun tid _ => decide (gids.getD tid 0 = id)) (fun _ _ => 1) 0 ws
      (List.range n) = ws := by
    apply List.ext_getElem (by rw [slotFold_length])
    intro i h1 h2
    rw [← getD_eq_getElem _ _ 0 h1, ← getD_eq_getElem _ _ 0 h2]
    rw [List.range_eq_range', slotFold_getD]
    rw [if_neg]
    rintro ⟨hs, hk, hl, hcond⟩
    exact hnm i (by omega) (by simpa using hcond)
  rw [hzero, hzero2]

theorem vertexFilterKernel_unique [Inhabited V] (gids : List Nat) (n id : Nat)
    (vv : List V) (f : V → V) (ws : List Nat) (u : Nat)
    (hun : u < n) (huv : u < vv.length) (huw : u < ws.length)
    (hmatch : gids.getD u 0 = id)
    (huniq : ∀ t, t < n → t ≠ u → gids.getD t 0 ≠ id) :
    vertexFilterKernel gids n id vv f ws
      = (vv.set u (f (vv.getD u default)), ws.set u 1) := by
  rw [vertexFilterKernel_eq_pair]
  have h1 : slotFold (fun tid _ => decide (gids.getD tid 0 = id)) (fun _ v => f v)
      default vv (List.range n) = vv.set u (f (vv.getD u default)) := by
    apply List.ext_getElem (by rw [slotFold_length, List.length_set])
    intro i hi1 hi2
    have hiv : i < vv.length := by
      have := slotFold_length (fun tid _ => decide (gids.getD tid 0 = id))
        (fun _ v => f v) (default : V) vv (List.range n)
      omega
    rw [← getD_eq_getElem _ _ default hi1, ← getD_eq_getElem _ _ default hi2]
    rw [List.range_eq_range', slotFold_getD]
    rcases eq_or_ne i u with rfl | hne
    · rw [if_pos ⟨Nat.zero_le _, by omega, hiv, by simpa using hmatch⟩,
        getD_set_self_of_lt _ _ _ _ hiv]
    · rw [if_neg (by
        rintro ⟨hs, hk, hl, hcond⟩
        exact huniq i (by omega) hne (by simpa using hcond)),
        getD_set_ne _ _ _ _ _ (Ne.symm hne)]
  have h2 : slotFold (fun tid _ => decide (gids.getD tid 0 = id)) (fun _ _ => 1)
      0 ws (List.range n) = ws.set u 1 := by
    apply List.ext_getElem (by rw [slotFold_length, List.length_set])
    intro i hi1 hi2
    have hiw : i < ws.length := by
      have := slotFold_length (fun tid _ => decide (gids.getD tid 0 = id))
        (fun _ _ => (1 : Nat)) 0 ws (List.range n)
      omega
    rw [← getD_eq_getElem _ _ 0 hi1, ← getD_eq_getElem _ _ 0 hi2]
    rw [List.range_eq_range', slotFold_getD]
    rcases eq_or_ne i u with rfl | hne
    · rw [if_pos ⟨Nat.zero_le _, by omega, hiw, by simpa using hmatch⟩,
        getD_set_self_of_lt _ _ _ _ hiw]
    · rw [if_neg (by
        rintro ⟨hs, hk, hl, hcond⟩
        exact huniq i (by omega) hne (by simpa using hcond)),
        getD_set_ne _ _ _ _ _ (Ne.symm hne)]
  rw [h1, h2]

theorem map_eq_self_of_forall (F : α → α) (l : List α) (h : ∀ a ∈ l, F a = a) :
    l.map F = l := by
  induction l with
  | nil => rfl
  | cons x xs ih =>
    rw [List.map_cons, h x (by simp), ih (fun a ha => h a (by simp [ha]))]

/-! ## Gather characterisation -/

theorem gatherPart_eq_zip [Inhabited V] (p : Partition V M)
    (hlen : p.globalIds.length = p.vertexValues.length) :
    (List.range p.vertexValues.length).map
        (fun j => (p.globalIds.getD j 0, p.vertexValues.getD j default))
      = p.globalIds.zip p.vertexValues := by
  apply List.ext_getElem (by simp [hlen])
  intro i h1 h2
  have hiv : i < p.vertexValues.length := by simpa using h1
  have hig : i < p.globalIds.length := by omega
  rw [List.getElem_map, List.getElem_range, List.getElem_zip]
  rw [getD_eq_getElem _ _ _ hig, getD_eq_getElem _ _ _ hiv]

theorem gatherTrace_eq_zip [Inhabited V] (e : Engine V M)
    (hlen : ∀ p ∈ e.partitions, p.globalIds.length = p.vertexValues.length) :
    gatherTrace e = e.partitions.flatMap (fun p => p.globalIds.zip p.vertexValues) := by
  unfold gatherTrace
  rw [List.flatMap_def, List.flatMap_def]
  apply congrArg List.flatten
  exact List.map_congr_left (fun p hp => gatherPart_eq_zip p (hlen p hp))

theorem gatherTrace_fst [Inhabited V] (e : Engine V M)
    (hlen : ∀ p ∈ e.partitions, p.globalIds.length = p.vertexValues.length) :
    (gatherTrace e).map Prod.fst = e.partitions.flatMap (fun p => p.globalIds) := by
  rw [gatherTrace_eq_zip e hlen, List.map_flatMap]
  rw [List.flatMap_def, List.flatMap_def]
  apply congrArg List.flatten
  apply List.map_congr_left
  intro p hp
  exact List.map_fst_zip _ _ (by rw [hlen p hp])

/-! ## Exchange and swap characterisation -/

theorem exchangePhase_getD (e : Engine V M) [Inhabited V] (j : Nat)
    (hj : j < e.partitions.length) :
    (exchangePhase e).partitions.getD j default
      = { e.partitions.getD j default with
            inboxes := mapWithIdx
              (fun i2 ib =>
                if j = i2 then ib
                else { ib with back := (e.partitions.getD i2 default).outboxes.getD j [] })
              0 (e.partitions.getD j default).inboxes } := by
  show (mapWithIdx _ 0 e.partitions).getD j default = _
  rw [getD_mapWithIdx _ _ _ _ _ hj]
  rw [Nat.zero_add]

theorem swapPhase_getD (e : Engine V M) [Inhabited V] (j : Nat)
    (hj : j < e.partitions.length) :
    (swapPhase e).partitions.getD j default
      = { e.partitions.getD j default with
            inboxes := mapWithIdx
              (fun i2 ib => if j = i2 then ib else (⟨ib.back, ib.front⟩ : Inbox M))
              0 (e.partitions.getD j default).inboxes } := by
  show (mapWithIdx _ 0 e.partitions).getD j default = _
  rw [getD_mapWithIdx _ _ _ _ _ hj]
  rw [Nat.zero_add]

theorem exchangePhase_length (e : Engine V M) :
    (exchangePhase e).partitions.length = e.partitions.length := by
  show (mapWithIdx _ 0 e.partitions).length = _
  rw [length_mapWithIdx]

theorem swapPhase_length (e : Engine V M) :
    (swapPhase e).partitions.length = e.partitions.length := by
  show (mapWithIdx _ 0 e.partitions).length = _
  rw [length_mapWithIdx]

theorem afterCompact_inboxes_getD [Inhabited V] (cond : V → Bool) (update : V → V)
    (unpack : M → V) (e : Engine V M) (j : Nat) (hj : j < e.partitions.length) :
    ((afterCompact cond update unpack e).partitions.getD j default).inboxes
      = (e.partitions.getD j default).inboxes := by
  rw [afterCompact_partitions, getD_map_lt _ _ _ _ default hj]
  show (scatterPartition cond update unpack e.partitions.length
    (e.partitions.getD j default)).inboxes = _
  exact scatterPartition_inboxes _ _ _ _ _

/-! ## The claims -/

/-- C5: for every message of a scattered inbox with receiver `r` and
unpacked payload `v2`: when `cond(vertexValues[r])` holds the kernel sets
`vertexValues[r] ← update(v2)` and `workset[r] ← 1`; when it does not hold
that message changes nothing.  The kernel is the fold of this per-message
step over the inbox, and the driver launches the scatter kernel once for
each non-empty inbox of each partition (an empty inbox is skipped, which
is exactly the identity on the partition). -/
theorem C5_scatter_semantics [Inhabited V] (cond : V → Bool) (update : V → V)
    (unpack : M → V) :
    (∀ (vv : List V) (ws : List Nat) (msg : VMsg M),
        (cond (vv.getD msg.receiverId default) = true →
          scatterStep cond update unpack (vv, ws) msg
            = (vv.set msg.receiverId (update (unpack msg.value)),
               ws.set msg.receiverId 1))
        ∧ (cond (vv.getD msg.receiverId default) = false →
            scatterStep cond update unpack (vv, ws) msg = (vv, ws)))
    ∧ (∀ (inbox : List (VMsg M)) (vv : List V) (ws : List Nat),
        scatterKernel cond update unpack inbox vv ws
          = inbox.foldl (scatterStep cond update unpack) (vv, ws))
    ∧ (∀ (numParts : Nat) (p : Partition V M),
        scatterPartition cond update unpack numParts p
          = (List.range numParts).foldl
              (fun q j =>
                { q with
                    vertexValues := (scatterKernel cond update unpack
                      (q.inboxes.getD j default).front q.vertexValues q.workset).1,
                    workset := (scatterKernel cond update unpack
                      (q.inboxes.getD j default).front q.vertexValues q.workset).2 })
              p) := by
  refine ⟨?_, ?_, ?_⟩
  · intro vv ws msg
    constructor
    · intro h
      unfold scatterStep
      dsimp only
      rw [if_pos h]
    · intro h
      unfold scatterStep
      dsimp only
      rw [if_neg (by intro hc; rw [h] at hc; exact Bool.noConfusion hc)]
  · intro inbox vv ws
    rfl
  · intro numParts p
    unfold scatterPartition
    apply congrArg (fun g => (List.range numParts).foldl g p)
    funext q j
    dsimp only
    by_cases h : ((q.inboxes.getD j default).front).length = 0
    · rw [if_pos h]
      have hf : (q.inboxes.getD j default).front = [] :=
        List.eq_nil_of_length_eq_zero h
      rw [hf]
      rfl
    · rw [if_neg h]

/-- C5 witness: a concrete message whose receiver passes the gate is
applied, and one whose receiver fails the gate is ignored. -/
theorem C5_scatter_semantics_witness :
    scatterStep (fun v => v == 0) (fun v => v + 1) (fun m : Nat => m)
        (([0, 5] : List Nat), ([0, 0] : List Nat)) ⟨0, 3⟩
      = ([4, 5], [1, 0])
    ∧ scatterStep (fun v => v == 0) (fun v => v + 1) (fun m : Nat => m)
        (([0, 5] : List Nat), ([0, 0] : List Nat)) ⟨1, 3⟩
      = ([0, 5], [0, 0]) := by
  constructor
  · have h := ((C5_scatter_semantics (fun v => v == 0) (fun v => v + 1)
      (fun m : Nat => m)).1 [0, 5] [0, 0] ⟨0, 3⟩).1 (by decide)
    exact h.trans (by decide)
  · exact ((C5_scatter_semantics (fun v => v == 0) (fun v => v + 1)
      (fun m : Nat => m)).1 [0, 5] [0, 0] ⟨1, 3⟩).2 (by decide)

/-- C6: after the compact phase of a superstep (which resets
`workqueueSize` to 0 before the kernel runs), `workqueueSize` counts the
vertices whose workset slot was 1 when compaction began, the workqueue
holds exactly those vertices, each once (the embedding fixes the
unspecified order to ascending), and every workset slot is 0. -/
theorem C6_compact_phase (p : Partition V M)
    (hlen : p.workset.length = p.vertexCount)
    (h01 : ∀ x ∈ p.workset, x = 0 ∨ x = 1) :
    (compactPartition p).workqueueSize
        = (List.range p.vertexCount).countP (fun u => decide (p.workset.getD u 0 = 1))
    ∧ (compactPartition p).workqueue
        = (List.range p.vertexCount).filter (fun u => decide (p.workset.getD u 0 = 1))
    ∧ (compactPartition p).workqueue.Nodup
    ∧ (∀ u, u ∈ (compactPartition p).workqueue
        ↔ u < p.vertexCount ∧ p.workset.getD u 0 = 1)
    ∧ (∀ x ∈ (compactPartition p).workset, x = 0) := by
  have hq : (compactPartition p).workqueue
      = (List.range p.vertexCount).filter (fun u => decide (p.workset.getD u 0 = 1)) :=
    compactKernel_queue p.workset p.vertexCount
  refine ⟨?_, hq, ?_, ?_, ?_⟩
  · show ((compactKernel p.workset p.vertexCount).2).length = _
    rw [show ((compactKernel p.workset p.vertexCount).2) = (compactPartition p).workqueue
        from rfl, hq, List.countP_eq_length_filter]
  · rw [hq]
    exact (List.nodup_range p.vertexCount).filter _
  · intro u
    rw [hq, List.mem_filter, List.mem_range]
    simp
  · exact compactKernel_fst_all_zero p.workset p.vertexCount hlen h01

/-- C6 witness: compacting the workset `[1, 0, 1]` yields queue `[0, 2]`,
size 2, and an all-zero workset. -/
theorem C6_compact_phase_witness :
    (compactPartition exCompactPart).workqueue = [0, 2]
    ∧ (compactPartition exCompactPart).workqueueSize = 2
    ∧ ((compactPartition exCompactPart).workset).getD 0 0 = 0 := by
  have h := C6_compact_phase exCompactPart (by decide) (by decide)
  refine ⟨h.2.1.trans (by decide), ?_, ?_⟩
  · exact h.1.trans (by decide)
  · exact h.2.2.2.2 _ (by decide)

/-- C7: expand iterates every edge of `[vertices[u], vertices[u+1])` for
every queued vertex `u`; a local edge (same partition id) updates the
destination under `cond` and raises its workset bit, a failing `cond`
leaves the state untouched; a remote edge appends exactly one message
`(receiverLocalId, pack(vertexValues[u]))` to the outbox of the
destination's partition, at the offset equal to the outbox's current
length, and does so without evaluating `cond` (the result is the same for
every gate function). -/
theorem C7_expand_semantics [Inhabited V] (thisPid : Nat) (edges : List (Nat × Nat))
    (cond : V → Bool) (update : V → V) (pack : V → M) (outNode e : Nat)
    (st : ExpandState V M) :
    ((edges.getD e (0, 0)).1 = thisPid →
       (cond (st.vertexValues.getD (edges.getD e (0, 0)).2 default) = true →
         expandEdgeStep thisPid edges cond update pack outNode st e
           = { st with
                 vertexValues := st.vertexValues.set (edges.getD e (0, 0)).2
                   (update (st.vertexValues.getD outNode default)),
                 workset := st.workset.set (edges.getD e (0, 0)).2 1 })
       ∧ (cond (st.vertexValues.getD (edges.getD e (0, 0)).2 default) = false →
           expandEdgeStep thisPid edges cond update pack outNode st e = st))
    ∧ ((edges.getD e (0, 0)).1 ≠ thisPid →
        (expandEdgeStep thisPid edges cond update pack outNode st e
          = { st with
                outboxes := st.outboxes.set (edges.getD e (0, 0)).1
                  ((st.outboxes.getD (edges.getD e (0, 0)).1 [])
                    ++ [⟨(edges.getD e (0, 0)).2,
                         pack (st.vertexValues.getD outNode default)⟩]) })
        ∧ ∀ cond2 : V → Bool,
            expandEdgeStep thisPid edges cond2 update pack outNode st e
              = expandEdgeStep thisPid edges cond update pack outNode st e)
    ∧ (∀ (vertices : List Nat),
        expandVertex thisPid vertices edges cond update pack outNode st
          = (List.range' (vertices.getD outNode 0)
              (vertices.getD (outNode + 1) 0 - vertices.getD outNode 0)).foldl
              (expandEdgeStep thisPid edges cond update pack outNode) st)
    ∧ (∀ (workqueue : List Nat) (n : Nat),
        expandKernel thisPid [] edges cond update pack workqueue n st
          = (List.range n).foldl
              (fun st2 tid =>
                expandVertex thisPid [] edges cond update pack
                  (workqueue.getD tid 0) st2) st) := by
  refine ⟨?_, ?_, ?_, ?_⟩
  · intro hpid
    constructor
    · intro hc
      unfold expandEdgeStep
      dsimp only
      rw [if_pos hpid, if_pos hc]
    · intro hc
      unfold expandEdgeStep
      dsimp only
      rw [if_pos hpid,
        if_neg (by intro h2; rw [hc] at h2; exact Bool.noConfusion h2)]
  · intro hpid
    constructor
    · unfold expandEdgeStep
      dsimp only
      rw [if_neg hpid]
    · intro cond2
      unfold expandEdgeStep
      dsimp only
      rw [if_neg hpid, if_neg hpid]
  · intro vertices
    rfl
  · intro workqueue n
    rfl

/-- C7 witness: on edge list `[(0, 1), (1, 0)]` with this partition id 0
and values `[10, 11]`: edge 0 is local and (gate true) rewrites slot 1,
gate false leaves the state; edge 1 is remote and appends one message to
outbox 1 at offset 0. -/
theorem C7_expand_semantics_witness :
    expandEdgeStep 0 [(0, 1), (1, 0)] condAlways updateSucc idNat 0
        ⟨[10, 20], [0, 0], [[], []]⟩ 0
      = (⟨[10, 11], [0, 1], [[], []]⟩ : ExpandState Nat Nat)
    ∧ expandEdgeStep 0 [(0, 1), (1, 0)] (fun _ => false) updateSucc idNat 0
        ⟨[10, 20], [0, 0], [[], []]⟩ 0
      = ⟨[10, 20], [0, 0], [[], []]⟩
    ∧ expandEdgeStep 0 [(0, 1), (1, 0)] condAlways updateSucc idNat 0
        ⟨[10, 20], [0, 0], [[], []]⟩ 1
      = ⟨[10, 20], [0, 0], [[], [⟨0, 10⟩]]⟩ := by
  refine ⟨?_, ?_, ?_⟩
  · have h := ((C7_expand_semantics 0 [(0, 1), (1, 0)] condAlways updateSucc
      idNat 0 0 ⟨[10, 20], [0, 0], [[], []]⟩).1 (by decide)).1 (by decide)
    exact h.trans (by decide)
  · exact ((C7_expand_semantics 0 [(0, 1), (1, 0)] (fun _ => false) updateSucc
      idNat 0 0 ⟨[10, 20], [0, 0], [[], []]⟩).1 (by decide)).2 (by decide)
  · have h := ((C7_expand_semantics 0 [(0, 1), (1, 0)] condAlways updateSucc
      idNat 0 1 ⟨[10, 20], [0, 0], [[], []]⟩).2.1 (by decide)).1
    exact h.trans (by decide)

/-- C10: `vertexMap(f)` maps `f` over every partition's `vertexValues`
and changes nothing else: the resulting engine is the input engine with
only the `vertexValues` field of each partition replaced by its image
under `f`; workset, workqueue, workqueueSize and every inbox and outbox
are those of the input, so `vertexMap` never activates a vertex or
produces work. -/
theorem C10_vertexMap_frame [Inhabited V] (f : V → V) (e : Engine V M) :
    vertexMapE f e
      = { e with partitions :=
            e.partitions.map (fun p => { p with vertexValues := p.vertexValues.map f }) } := by
  unfold vertexMapE
  show ({ e with partitions := _ } : Engine V M) = _
  apply congrArg (fun l => ({ e with partitions := l } : Engine V M))
  apply List.map_congr_left
  intro p _
  rw [vertexMapKernel_eq_map]

/-- C2 counterexample: on a one-partition engine with local edge 0→1 and
vertex 0 seeded, the completed (non-terminating) superstep leaves
`workset[1] = 1`: the expand phase re-activates local destinations, so the
workset is not identically zero after the superstep (nor is it all zero
when compaction begins — slot 0 holds the seed). -/
theorem C2_counterexample :
    (stepOnce condAlways updateSucc idNat idNat exLocalEngine).2 = false
    ∧ (((stepOnce condAlways updateSucc idNat idNat exLocalEngine).1.partitions.getD 0
          default).workset).getD 1 0 = 1 := by
  constructor
  · rfl
  · rfl

/-- C2 amended: the all-zero claim holds at the end of the compact phase,
not after the whole superstep: provided every slot is 0 or 1 (the only
values the kernels ever write), compaction clears every slot it observes,
so the workset is identically zero when the compact phase completes; the
expand phase then re-populates it for the next superstep. -/
theorem C2_amended_workset_zero_after_compact (p : Partition V M)
    (hlen : p.workset.length = p.vertexCount)
    (h01 : ∀ x ∈ p.workset, x = 0 ∨ x = 1) :
    ∀ x ∈ (compactPartition p).workset, x = 0 :=
  compactKernel_fst_all_zero p.workset p.vertexCount hlen h01

/-- C2 witness: compacting the seeded workset of the local-edge partition
zeroes slot 0. -/
theorem C2_amended_witness :
    ((compactPartition exLocalPart).workset).getD 0 0 = 0 := by
  have h := C2_amended_workset_zero_after_compact exLocalPart (by decide) (by decide)
  exact h _ (by decide)

/-- C4 counterexample: with a preallocated outbox capacity of 0 for peer
1, a single remote push in the expand kernel produces an outbox of length
1 — exceeding its capacity — and no error of any kind is raised: the
kernel's only effect is the unconditional write at the reserved offset, so
the engine does not detect the overflow and would write past the buffer. -/
theorem C4_counterexample :
    ¬ outboxesWithinCapacity [0, 0]
        ((expandEdgeStep 0 [(1, 0)] condAlways updateSucc idNat 0
          (⟨[3], [0], [[], []]⟩ : ExpandState Nat Nat) 0).outboxes) := by
  intro h
  have h1 := h 1
  revert h1
  decide

/-- C4 amended: the source performs no bounds check at all: for every
remote edge the expand kernel appends its message at the offset returned
by the atomic increment — the current outbox length — unconditionally,
whatever the preallocated capacity; overflow must be prevented by sizing,
exactly as the message-box push contract states. -/
theorem C4_amended_no_bounds_check [Inhabited V] (thisPid : Nat)
    (edges : List (Nat × Nat)) (cond : V → Bool) (update : V → V) (pack : V → M)
    (outNode e : Nat) (st : ExpandState V M)
    (h : (edges.getD e (0, 0)).1 ≠ thisPid) :
    (expandEdgeStep thisPid edges cond update pack outNode st e).outboxes
      = st.outboxes.set (edges.getD e (0, 0)).1
          ((st.outboxes.getD (edges.getD e (0, 0)).1 [])
            ++ [⟨(edges.getD e (0, 0)).2, pack (st.vertexValues.getD outNode default)⟩]) := by
  unfold expandEdgeStep
  dsimp only
  rw [if_neg h]

/-- C4 witness: the concrete overflowing push of the counterexample indeed
lands at offset 0 of outbox 1, past its capacity 0. -/
theorem C4_amended_witness :
    (expandEdgeStep 0 [(1, 0)] condAlways updateSucc idNat 0
        (⟨[3], [0], [[], []]⟩ : ExpandState Nat Nat) 0).outboxes
      = [[], [⟨0, 3⟩]] := by
  have h := C4_amended_no_bounds_check 0 [(1, 0)] condAlways updateSucc idNat 0 0
    (⟨[3], [0], [[], []]⟩ : ExpandState Nat Nat) (by decide)
  exact h.trans (by decide)

theorem filterPart_unchanged [Inhabited V] (id : Nat) (f : V → V) (p : Partition V M)
    (hlen : p.globalIds.length = p.vertexValues.length) (hid : id ∉ p.globalIds) :
    ({ p with
        vertexValues := (vertexFilterKernel p.globalIds p.vertexValues.length id
          p.vertexValues f p.workset).1,
        workset := (vertexFilterKernel p.globalIds p.vertexValues.length id
          p.vertexValues f p.workset).2 } : Partition V M) = p := by
  have hnm : ∀ t, t < p.vertexValues.length → p.globalIds.getD t 0 ≠ id := by
    intro t ht
    have htg : t < p.globalIds.length := by omega
    rw [getD_eq_getElem _ _ _ htg]
    intro hcontra
    exact hid (hcontra ▸ List.getElem_mem htg)
  rw [vertexFilterKernel_unchanged _ _ _ _ _ _ hnm]

/-- C9: `vertexFilter(id, f)`.  If `id` occurs in no partition's
`globalIds`, the whole engine state is unchanged (in particular an
all-zero workset stays all-zero).  If `id` occurs in exactly one slot `u`
of partition `k`, that partition gets `vertexValues[u] ← f(vertexValues[u])`
and `workset[u] ← 1` and nothing else changes — its other slots are
untouched by the `set`-form, and every partition without an occurrence is
returned identically. -/
theorem C9_vertexFilter_frame [Inhabited V] (id : Nat) (f : V → V) (e : Engine V M)
    (hlen : ∀ p ∈ e.partitions, p.globalIds.length = p.vertexValues.length)
    (hws : ∀ p ∈ e.partitions, p.workset.length = p.vertexValues.length) :
    ((∀ p ∈ e.partitions, id ∉ p.globalIds) → vertexFilterE id f e = e)
    ∧ (∀ k u : Nat, k < e.partitions.length →
        u < (e.partitions.getD k default).globalIds.length →
        (e.partitions.getD k default).globalIds.getD u 0 = id →
        (∀ t, t < (e.partitions.getD k default).globalIds.length → t ≠ u →
          (e.partitions.getD k default).globalIds.getD t 0 ≠ id) →
        ((vertexFilterE id f e).partitions.getD k default
            = { e.partitions.getD k default with
                  vertexValues := (e.partitions.getD k default).vertexValues.set u
                    (f ((e.partitions.getD k default).vertexValues.getD u default)),
                  workset := (e.partitions.getD k default).workset.set u 1 })
        ∧ (∀ m, m < e.partitions.length →
            id ∉ (e.partitions.getD m default).globalIds →
            (vertexFilterE id f e).partitions.getD m default
              = e.partitions.getD m default)) := by
  constructor
  · intro hall
    unfold vertexFilterE
    show ({ e with partitions := _ } : Engine V M) = e
    rw [map_eq_self_of_forall _ _ (fun p hp =>
      filterPart_unchanged id f p (hlen p hp) (hall p hp))]
  · intro k u hk hug hmatch huniq
    have hpk : e.partitions.getD k default ∈ e.partitions := by
      rw [getD_eq_getElem _ _ _ hk]
      exact List.getElem_mem hk
    have hlk := hlen _ hpk
    have hwk := hws _ hpk
    constructor
    · show (e.partitions.map _).getD k default = _
      rw [getD_map_lt _ _ _ _ default hk]
      have huv : u < (e.partitions.getD k default).vertexValues.length := by omega
      have huw : u < (e.partitions.getD k default).workset.length := by omega
      rw [vertexFilterKernel_unique _ _ _ _ _ _ u huv huv huw hmatch
        (fun t ht htne => huniq t (by omega) htne)]
    · intro m hm hnid
      have hpm : e.partitions.getD m default ∈ e.partitions := by
        rw [getD_eq_getElem _ _ _ hm]
        exact List.getElem_mem hm
      show (e.partitions.map _).getD m default = _
      rw [getD_map_lt _ _ _ _ default hm]
      exact filterPart_unchanged id f _ (hlen _ hpm) hnid

/-- C9 witness: filtering the absent id 99 leaves the gather-example
engine unchanged, and filtering id 1 (present only at partition 1, slot 0)
rewrites exactly that slot and raises exactly that workset bit. -/
theorem C9_vertexFilter_frame_witness :
    vertexFilterE 99 updateSucc exGatherEngine = exGatherEngine
    ∧ (vertexFilterE 1 updateSucc exGatherEngine).partitions.getD 1 default
        = { (exGatherEngine.partitions.getD 1 default) with
              vertexValues := [12], workset := [1] } := by
  constructor
  · exact (C9_vertexFilter_frame 99 updateSucc exGatherEngine (by decide)
      (by decide)).1 (by decide)
  · have h := ((C9_vertexFilter_frame 1 updateSucc exGatherEngine (by decide)
      (by decide)).2 1 0 (by decide) (by decide) (by decide)
      (by decide)).1
    exact h.trans (by decide)

/-- C8: `gather` invokes the callback at `(globalIds[j], vertexValues[j])`
for every local index `j` of every partition, in partition-major,
local-index-major order — the invocation trace is exactly the
concatenation, partition by partition, of `globalIds.zip vertexValues` —
and, when the `globalIds` sequences form a partition of the vertex set
(no duplicates, every vertex covered), every global id is visited exactly
once. -/
theorem C8_gather_trace [Inhabited V] (e : Engine V M)
    (hlen : ∀ p ∈ e.partitions, p.globalIds.length = p.vertexValues.length)
    (hnd : (e.partitions.flatMap (fun p => p.globalIds)).Nodup)
    (hcov : ∀ v, v < e.vertexCount → v ∈ e.partitions.flatMap (fun p => p.globalIds)) :
    gatherTrace e = e.partitions.flatMap (fun p => p.globalIds.zip p.vertexValues)
    ∧ (gatherTrace e).map Prod.fst = e.partitions.flatMap (fun p => p.globalIds)
    ∧ (∀ v, v < e.vertexCount → ((gatherTrace e).map Prod.fst).count v = 1) := by
  refine ⟨gatherTrace_eq_zip e hlen, gatherTrace_fst e hlen, ?_⟩
  intro v hv
  rw [gatherTrace_fst e hlen]
  exact List.count_eq_one_of_mem hnd (hcov v hv)

/-- C8 witness: on the two-partition example the trace is
`[(0,10), (2,12), (1,11)]` and the global id 1 is visited exactly once. -/
theorem C8_gather_trace_witness :
    gatherTrace exGatherEngine = [(0, 10), (2, 12), (1, 11)]
    ∧ ((gatherTrace exGatherEngine).map Prod.fst).count 1 = 1 := by
  have h := C8_gather_trace exGatherEngine (by decide) (by decide) (by decide)
  constructor
  · exact h.1.trans (by decide)
  · exact h.2.2 1 (by decide)

/-- C1: the run loop terminates exactly when the probe taken after the
scatter and compact phases sees `workqueueSize = 0` on every partition:
the superstep's terminate flag equals that probe; on a positive probe the
superstep returns the post-compact state itself — the scatter and compact
phases touch no outbox or inbox, so no expand and no exchange has run —
and `run` then returns at once with that state; on a negative probe `run`
continues with the fully-stepped state. -/
theorem C1_run_termination [Inhabited V] (cond : V → Bool) (update : V → V)
    (pack : V → M) (unpack : M → V) (e : Engine V M) (fuel : Nat) :
    ((stepOnce cond update pack unpack e).2
        = allQueuesEmpty (afterCompact cond update unpack e))
    ∧ (allQueuesEmpty (afterCompact cond update unpack e) = true →
        (stepOnce cond update pack unpack e).1 = afterCompact cond update unpack e)
    ∧ ((afterCompact cond update unpack e).partitions.map (fun p => (p.outboxes, p.inboxes))
        = e.partitions.map (fun p => (p.outboxes, p.inboxes)))
    ∧ (runE cond update pack unpack (fuel + 1) e
        = if allQueuesEmpty (afterCompact cond update unpack e) = true
          then some (afterCompact cond update unpack e)
          else runE cond update pack unpack fuel
            (swapPhase (exchangePhase (expandPhase cond update pack
              (afterCompact cond update unpack e))))) := by
  refine ⟨?_, ?_, afterCompact_boxes cond update unpack e, ?_⟩
  · by_cases h : allQueuesEmpty (afterCompact cond update unpack e) = true
    · rw [h]
      show (if allQueuesEmpty (afterCompact cond update unpack e) = true
        then (afterCompact cond update unpack e, true) else _).2 = true
      rw [if_pos h]
    · rw [Bool.eq_false_iff.mpr h]
      show (if allQueuesEmpty (afterCompact cond update unpack e) = true
        then (afterCompact cond update unpack e, true) else _).2 = false
      rw [if_neg h]
  · intro h
    show (if allQueuesEmpty (afterCompact cond update unpack e) = true
      then (afterCompact cond update unpack e, true) else _).1 = _
    rw [if_pos h]
  · by_cases h : allQueuesEmpty (afterCompact cond update unpack e) = true
    · rw [if_pos h]
      show (if (stepOnce cond update pack unpack e).2 = true
        then some (stepOnce cond update pack unpack e).1
        else runE cond update pack unpack fuel (stepOnce cond update pack unpack e).1) = _
      rw [if_pos (by
        show (if allQueuesEmpty (afterCompact cond update unpack e) = true
          then (afterCompact cond update unpack e, true) else _).2 = true
        rw [if_pos h])]
      apply congrArg some
      show (if allQueuesEmpty (afterCompact cond update unpack e) = true
        then (afterCompact cond update unpack e, true) else _).1 = _
      rw [if_pos h]
    · rw [if_neg h]
      show (if (stepOnce cond update pack unpack e).2 = true
        then some (stepOnce cond update pack unpack e).1
        else runE cond update pack unpack fuel (stepOnce cond update pack unpack e).1) = _
      rw [if_neg (by
        show ¬ (if allQueuesEmpty (afterCompact cond update unpack e) = true
          then (afterCompact cond update unpack e, true) else _).2 = true
        rw [if_neg h]
        exact Bool.noConfusion)]
      apply congrArg (runE cond update pack unpack fuel)
      show (if allQueuesEmpty (afterCompact cond update unpack e) = true
        then (afterCompact cond update unpack e, true) else _).1 = _
      rw [if_neg h]

/-- C1 witness: on a quiescent engine the very first probe is positive,
one superstep of `run` returns the post-compact state, and no expand or
exchange has altered its boxes. -/
theorem C1_run_termination_witness :
    (stepOnce condAlways updateSucc idNat idNat quietEngine).1
        = afterCompact condAlways updateSucc idNat quietEngine
    ∧ runE condAlways updateSucc idNat idNat 1 quietEngine
        = some (afterCompact condAlways updateSucc idNat quietEngine) := by
  constructor
  · exact (C1_run_termination condAlways updateSucc idNat idNat quietEngine 0).2.1
      (by decide)
  · have h := (C1_run_termination condAlways updateSucc idNat idNat quietEngine 0).2.2.2
    rw [if_pos (by decide)] at h
    exact h

/-- C3 counterexample: the message `(0, 7)` pushed by partition 0 during
superstep 1 is delivered to partition 1's inbox front for superstep 2 —
but it is delivered AGAIN for superstep 3: in superstep 2 partition 0's
workqueue is empty (conjunct 4), so its outboxes are never cleared
(`engine.h` lines 383-391 skip the partition), yet the exchange
(`engine.h` lines 426-433) runs for every pair unconditionally and
re-copies the stale outbox.  Both supersteps are non-terminating, so the
scatter of superstep 3 reads the same message a second time, refuting
"read by scatter exactly once" and "no message produced in an earlier
step is delivered again". -/
theorem C3_counterexample :
    (stepOnce condAlways updateSucc idNat idNat staleEngine).2 = false
    ∧ (stepOnce condAlways updateSucc idNat idNat staleEngine1).2 = false
    ∧ ((staleEngine1.partitions.getD 1 default).inboxes.getD 0 default).front
        = [⟨0, 7⟩]
    ∧ ((afterCompact condAlways updateSucc idNat
          staleEngine1).partitions.getD 0 default).workqueueSize = 0
    ∧ ((staleEngine2.partitions.getD 1 default).inboxes.getD 0 default).front
        = [⟨0, 7⟩] := by
  exact ⟨rfl, rfl, rfl, rfl, rfl⟩

/-- C3 amended: in a non-terminating superstep `t`, whatever partition
`i`'s outbox slot `j` holds at the end of the expand phase — the messages
pushed during step `t` when `i` expanded, or the stale content of an
earlier step when `i` was skipped — is exactly what partition `j`'s inbox
slot `i` presents in its front buffer when step `t+1` begins, after the
exchange and the buffer swap; a message pushed in step `t` is therefore
first visible to scatter in step `t+1` and never in step `t` itself (the
superstep is literally the phase composition, scatter before expand).
Exactly-once delivery, however, requires outbox clearing, which only
happens for partitions with a non-empty workqueue. -/
theorem C3_amended_delivery [Inhabited V] (cond : V → Bool) (update : V → V)
    (pack : V → M) (unpack : M → V) (e : Engine V M) (i j : Nat)
    (hterm : allQueuesEmpty (afterCompact cond update unpack e) = false)
    (hij : i ≠ j) (hj : j < e.partitions.length)
    (hi : i < (e.partitions.getD j default).inboxes.length) :
    (stepOnce cond update pack unpack e).1
        = swapPhase (exchangePhase (expandPhase cond update pack
            (afterCompact cond update unpack e)))
    ∧ (((stepOnce cond update pack unpack e).1.partitions.getD j
          default).inboxes.getD i default).front
        = ((expandPhase cond update pack
            (afterCompact cond update unpack e)).partitions.getD
              i default).outboxes.getD j [] := by
  have hstep : (stepOnce cond update pack unpack e).1
      = swapPhase (exchangePhase (expandPhase cond update pack
          (afterCompact cond update unpack e))) := by
    show (if allQueuesEmpty (afterCompact cond update unpack e) = true
      then (afterCompact cond update unpack e, true) else _).1 = _
    rw [if_neg (by rw [hterm]; exact Bool.noConfusion)]
  refine ⟨hstep, ?_⟩
  rw [hstep]
  have h2j : j < (afterCompact cond update unpack e).partitions.length := by
    rw [afterCompact_length]
    exact hj
  have h3j : j < (expandPhase cond update pack
      (afterCompact cond update unpack e)).partitions.length := by
    rw [expandPhase_length, afterCompact_length]
    exact hj
  have hinb3 : ((expandPhase cond update pack
      (afterCompact cond update unpack e)).partitions.getD j default).inboxes
      = (e.partitions.getD j default).inboxes := by
    rw [expandPhase_inboxes_getD _ _ _ _ j h2j,
      afterCompact_inboxes_getD _ _ _ _ j hj]
  have h4j : j < (exchangePhase (expandPhase cond update pack
      (afterCompact cond update unpack e))).partitions.length := by
    rw [exchangePhase_length]
    exact h3j
  rw [swapPhase_getD _ j h4j]
  show ((mapWithIdx _ 0 ((exchangePhase (expandPhase cond update pack
      (afterCompact cond update unpack e))).partitions.getD j
        default).inboxes).getD i default).front = _
  rw [exchangePhase_getD _ j h3j]
  show ((mapWithIdx _ 0 (mapWithIdx _ 0 ((expandPhase cond update pack
      (afterCompact cond update unpack e)).partitions.getD j
        default).inboxes)).getD i default).front = _
  have hi3 : i < ((expandPhase cond update pack
      (afterCompact cond update unpack e)).partitions.getD j
        default).inboxes.length := by
    rw [hinb3]
    exact hi
  rw [getD_mapWithIdx _ _ _ _ _ (by rw [length_mapWithIdx]; exact hi3)]
  rw [Nat.zero_add, if_neg (Ne.symm hij)]
  show ((mapWithIdx _ 0 ((expandPhase cond update pack
      (afterCompact cond update unpack e)).partitions.getD j
        default).inboxes).getD i default).back = _
  rw [getD_mapWithIdx _ _ _ _ _ hi3]
  rw [Nat.zero_add, if_neg (Ne.symm hij)]

/-- C3 witness for the amended theorem: in the stale-outbox engine's first
superstep, partition 1's inbox front for peer 0 at the start of superstep
2 is exactly partition 0's post-expand outbox slot 1, namely `[(0, 7)]`. -/
theorem C3_amended_delivery_witness :
    (((stepOnce condAlways updateSucc idNat idNat staleEngine).1.partitions.getD 1
        default).inboxes.getD 0 default).front
      = ((expandPhase condAlways updateSucc idNat
          (afterCompact condAlways updateSucc idNat staleEngine)).partitions.getD
            0 default).outboxes.getD 1 [] := by
  exact (C3_amended_delivery condAlways updateSucc idNat idNat staleEngine 0 1
    (by decide) (by decide) (by decide) (by decide)).2

end Olive
